import Mathlib

/-!
Verification of the clox-style Lox bytecode interpreter in this repository
against its natural-language specification.

The development shallowly embeds the C sources:
* the string hash table of `table.c` (`findEntry`, `adjustCapacity`,
  `tableSet`, `tableDelete`, `tableGet`, `tableAddAll`, `tableFindString`,
  `tableRemoveWhite`), byte-faithfully including its use of
  `entry->key->hash` comparisons, the rehash loop reading `entries[1]`,
  and the `memcpy(...) == 0` test in `tableFindString`;
* string creation and interning of `object.c` (`copyString`, `takeString`,
  `allocateString`, the FNV-1a hash);
* the final `valuesEqual` of `value.c` (pointer identity on `VAL_OBJ`);
* the scanner keyword trie (`checkKeyword`, `identifierType`) including the
  missing `break` after the `'e'` case;
* the compiler's slot-zero receiver binding from `initCompiler`;
* the VM operations of `vm.c` relevant to the claims: `OP_EQUAL`, `OP_ADD`
  and the `BINARY_OP` macro with `concatenate`, `OP_SET_GLOBAL`,
  `OP_INHERIT`'s method-table copy, `callValue` on a class (`call`),
  `captureUpvalue` and `closeUpvalues`;
* the mark-sweep collector of `memory.c` (`markObject`/`markValue` via a
  worklist, `blackenObject`, `markRoots`, `traceReferences`, `sweep`,
  `collectGarbage`).

Machine integers are modelled as `Nat` with explicit reduction mod `2 ^ 32`
where the C code relies on `uint32_t` wraparound. The numeric payload of a
Lox value is idealised as `Rat` (IEEE-754 rounding is out of scope for every
claim settled here). C character buffers are byte lists (`List Nat`).
Heap identity of an object is an explicit `addr : Nat`; real allocations
always produce a nonzero address, mirroring a non-NULL `malloc` result.
-/

/-- Bytes of the string literal "a". -/
def aChars : List Nat := [97]

/-- Bytes of the string literal "init". -/
def initChars : List Nat := [105, 110, 105, 116]

/-- Bytes of the identifier "liquid". -/
def liquidChars : List Nat := [108, 105, 113, 117, 105, 100]

/-- Bytes of the identifier "costarring". -/
def costarringChars : List Nat := [99, 111, 115, 116, 97, 114, 114, 105, 110, 103]

/-- Bytes of the keyword "ego". -/
def egoChars : List Nat := [101, 103, 111]

/-- Bytes of the identifier "this". -/
def thisChars : List Nat := [116, 104, 105, 115]

/-- The FNV-1a hash from `object.c`: start from the offset basis
2166136261, and for each byte xor it in and multiply by the prime
16777619, wrapping at 32 bits (`uint32_t`). -/
def fnv1a32 (key : List Nat) : Nat :=
  key.foldl (fun h b => (Nat.xor h b) * 16777619 % 4294967296) 2166136261

/-- `hashString` of `object.c` simply delegates to `fnv1a32`. -/
def hashString (key : List Nat) : Nat := fnv1a32 key

/-- `ObjString`: heap identity (`addr`, the address of its character
array, nonzero for every real allocation), byte contents, and the 32-bit
hash stored at creation time. `length` in the C struct always equals the
length of `chars`, so it is kept derived. -/
structure ObjString where
  addr : Nat
  chars : List Nat
  hash : Nat
deriving DecidableEq, Repr

/-- The tagged `Value` of the final interpreter. Heap objects that carry
mutable state (classes, instances) are referenced by address, exactly as
the C `Value` holds an `Obj*`; small immutable payloads (string bytes,
a closure's function arity) are carried inline for convenience. -/
inductive Value where
  | nil
  | bool (b : Bool)
  | num (q : Rat)
  | str (s : ObjString)
  | closure (addr : Nat) (arity : Nat)
  | cls (addr : Nat)
  | inst (addr : Nat)
  | native (addr : Nat)
  | fnObj (addr : Nat)
  | bound (addr : Nat)
deriving DecidableEq, Repr

/-- `IS_STRING` from `object.h`. -/
def isString : Value → Bool
  | Value.str _ => true
  | _ => false

/-- `IS_NUMBER` from `value.h`. -/
def isNumber : Value → Bool
  | Value.num _ => true
  | _ => false

/-- One bucket of the hash table (`Entry` in `table.h`): an optional key
and a value. A `none` key with a `nil` value is an empty bucket; a `none`
key with the value `true` is a tombstone. -/
structure Entry where
  key : Option ObjString
  val : Value
deriving DecidableEq, Repr

/-- An empty bucket. -/
def emptyEntry : Entry := ⟨none, Value.nil⟩

/-- The `Table` struct: element count (entries plus tombstones), bucket
capacity, and the bucket array (its length is the capacity). -/
structure Table where
  count : Nat
  capacity : Nat
  entries : List Entry
deriving DecidableEq, Repr

/-- `initTable`: count 0, capacity 0, no buckets. -/
def initTable : Table := ⟨0, 0, []⟩

/-- `GROW_CAPACITY` from `memory.h`: 8 below 8, otherwise double. -/
def growCapacity (capacity : Nat) : Nat :=
  if capacity < 8 then 8 else capacity * 2

/-- The probe loop of `findEntry` from `table.c`. Starting from
`hash % capacity` it probes linearly. An empty non-tombstone bucket ends
the search (returning the first tombstone passed, if any); a bucket whose
key has the probed hash is returned as a match — the source compares
`entry->key->hash == key->hash` only, never the key pointers or bytes, so
distinct keys with equal hashes are identified. The C loop has no exit
when no empty bucket exists; the fuel (one unit per bucket) returns `none`
exactly when the C loop would cycle forever. -/
def findEntryAux (entries : List Entry) (capacity khash : Nat) :
    Nat → Nat → Option Nat → Option Nat
  | 0, _, _ => none
  | fuel + 1, index, tombstone =>
    let e := entries.getD index emptyEntry
    match e.key with
    | none =>
      if e.val = Value.nil then
        some (tombstone.getD index)
      else
        findEntryAux entries capacity khash fuel ((index + 1) % capacity)
          (match tombstone with
           | some t => some t
           | none => some index)
    | some k =>
      if k.hash = khash then some index
      else findEntryAux entries capacity khash fuel ((index + 1) % capacity) tombstone

/-- `findEntry`, returning the index of the bucket the C function would
return a pointer to, or `none` when the C probe would never terminate. -/
def findEntry (entries : List Entry) (capacity : Nat) (khash : Nat) : Option Nat :=
  findEntryAux entries capacity khash capacity (khash % capacity) none

/-- `adjustCapacity` from `table.c`. It allocates `capacity` empty
buckets, then loops `i` over the old bucket range re-inserting — but the
loop body of the source reads `&table->entries[1]`, not `entries[i]`:
every iteration re-reads bucket 1 of the old array. The model reproduces
that read faithfully. The inner `findEntry` on the fresh array always
finds a bucket (the array is almost empty), so its `none` case is dead. -/
def adjustCapacity (t : Table) (capacity : Nat) : Table :=
  let fresh := List.replicate capacity emptyEntry
  let step := fun (st : List Entry × Nat) (_i : Nat) =>
    let entry := t.entries.getD 1 emptyEntry
    match entry.key with
    | none => st
    | some k =>
      match findEntry st.1 capacity k.hash with
      | none => st
      | some dst => (st.1.set dst entry, st.2 + 1)
  let es := (List.range t.capacity).foldl step (fresh, 0)
  ⟨es.2, capacity, es.1⟩

/-- `tableSet` from `table.c`: grow when `count + 1` would exceed
capacity times the load factor 0.75 (the comparison `count + 1 >
capacity * 0.75` is exact in these integer ranges, rendered as
`4 * (count + 1) > 3 * capacity`), find the bucket for the key, bump the
count when filling a truly empty bucket, store the pair, and report
whether the key was new (the bucket had no key). `none` from the probe
marks a diverging C loop; no claim below is settled through that case. -/
def tableSet (t : Table) (key : ObjString) (v : Value) : Table × Bool :=
  let t1 := if 4 * (t.count + 1) > 3 * t.capacity
            then adjustCapacity t (growCapacity t.capacity) else t
  match findEntry t1.entries t1.capacity key.hash with
  | none => (t1, false)
  | some i =>
    let e := t1.entries.getD i emptyEntry
    let isNewKey := e.key.isNone
    let count := if isNewKey ∧ e.val = Value.nil then t1.count + 1 else t1.count
    (⟨count, t1.capacity, t1.entries.set i ⟨some key, v⟩⟩, isNewKey)

/-- `tableDelete` from `table.c`: find the bucket, and when it holds a
key, replace it with a tombstone (no key, value `true`). -/
def tableDelete (t : Table) (key : ObjString) : Table × Bool :=
  if t.count = 0 then (t, false)
  else
    match findEntry t.entries t.capacity key.hash with
    | none => (t, false)
    | some i =>
      let e := t.entries.getD i emptyEntry
      if e.key.isNone then (t, false)
      else (⟨t.count, t.capacity, t.entries.set i ⟨none, Value.bool true⟩⟩, true)

/-- `tableGet` from `table.c`. The outer `Option` is `none` when the C
probe would not terminate; inside, `none` means the key was absent and
`some v` means it was found with value `v`. -/
def tableGet (t : Table) (key : ObjString) : Option (Option Value) :=
  if t.count = 0 then some none
  else
    match findEntry t.entries t.capacity key.hash with
    | none => none
    | some i =>
      let e := t.entries.getD i emptyEntry
      match e.key with
      | none => some none
      | some _ => some (some e.val)

/-- `tableAddAll` from `table.c`: walk the source bucket array in order
and `tableSet` every populated bucket into the destination. -/
def tableAddAll (src : Table) (dst : Table) : Table :=
  src.entries.foldl
    (fun acc e =>
      match e.key with
      | none => acc
      | some k => (tableSet acc k e.val).1)
    dst

/-- The probe loop of `tableFindString` from `table.c`. An empty
non-tombstone bucket returns NULL. For a populated bucket the source
tests `entry->key->length == length && entry->key->hash == hash &&
memcpy(entry->key->chars, chars, length) == 0`: `memcpy` (not `memcmp`)
copies `length` bytes of the probe into the key's buffer — a no-op
whenever the contents already agree, as at every input settled below —
and returns its destination pointer `entry->key->chars`, so the final
conjunct compares that pointer with NULL. The model renders it as
`k.addr = 0`, which is false for every really allocated string. -/
def tableFindStringAux (entries : List Entry) (capacity : Nat)
    (chars : List Nat) (length hash : Nat) : Nat → Nat → Option ObjString
  | 0, _ => none
  | fuel + 1, index =>
    let e := entries.getD index emptyEntry
    match e.key with
    | none =>
      if e.val = Value.nil then none
      else tableFindStringAux entries capacity chars length hash fuel ((index + 1) % capacity)
    | some k =>
      if k.chars.length = length ∧ k.hash = hash ∧ k.addr = 0 then some k
      else tableFindStringAux entries capacity chars length hash fuel ((index + 1) % capacity)

/-- `tableFindString`: NULL when the table is empty, otherwise probe from
`hash % capacity`. -/
def tableFindString (t : Table) (chars : List Nat) (length hash : Nat) : Option ObjString :=
  if t.count = 0 then none
  else tableFindStringAux t.entries t.capacity chars length hash t.capacity (hash % t.capacity)

/-- `tableRemoveWhite` from `table.c`: walk the bucket range; every bucket
whose key string is unmarked (its address is not in the mark set) is
deleted, leaving a tombstone. The walk re-reads the mutated table, as in
the source. -/
def tableRemoveWhite (t : Table) (marked : Finset Nat) : Table :=
  (List.range t.capacity).foldl
    (fun acc i =>
      let e := acc.entries.getD i emptyEntry
      match e.key with
      | none => acc
      | some k => if k.addr ∉ marked then (tableDelete acc k).1 else acc)
    t

/-- The string-creating part of the VM state: the allocator's next fresh
address and the interned-string table `vm.strings`. -/
structure StringPool where
  nextAddr : Nat
  strings : Table
deriving DecidableEq, Repr

/-- A string pool with an empty `vm.strings` table. -/
def emptyPool : StringPool := ⟨0, initTable⟩

/-- `allocateString` from `object.c`: build the `ObjString` (with a
fresh, nonzero character-array address and the precomputed hash), push it
on the VM stack for GC safety, intern it into `vm.strings` under the
value `nil` (the table is used as a set), and pop. -/
def allocateString (p : StringPool) (chars : List Nat) (hash : Nat) :
    ObjString × StringPool :=
  let s : ObjString := ⟨p.nextAddr + 1, chars, hash⟩
  (s, ⟨p.nextAddr + 1, (tableSet p.strings s Value.nil).1⟩)

/-- `copyString` from `object.c`: hash the bytes, look them up in
`vm.strings` via `tableFindString`, return the interned string when one is
found, and otherwise copy the bytes to a fresh buffer and allocate. -/
def copyString (p : StringPool) (chars : List Nat) : ObjString × StringPool :=
  let hash := hashString chars
  match tableFindString p.strings chars chars.length hash with
  | some interned => (interned, p)
  | none => allocateString p chars hash

/-- `takeString` from `object.c`: identical lookup; on a hit the passed
buffer is freed and the interned string returned, otherwise the buffer is
taken over by a fresh allocation. -/
def takeString (p : StringPool) (chars : List Nat) : ObjString × StringPool :=
  let hash := hashString chars
  match tableFindString p.strings chars chars.length hash with
  | some interned => (interned, p)
  | none => allocateString p chars hash

/-- The `OP_SET_GLOBAL` case of `run` in `vm.c`: `tableSet` the name; when
that reports a new key, the binding is deleted again and the "Undefined
variable" runtime error raised (the returned flag is `true` exactly when
the error path was taken and the interpreter aborts). -/
def opSetGlobal (globals : Table) (name : ObjString) (v : Value) : Table × Bool :=
  let r := tableSet globals name v
  if r.2 then ((tableDelete r.1 name).1, true)
  else (r.1, false)

/-- The method-table copy performed by the `OP_INHERIT` case of `run` in
`vm.c` once the superclass check passed: `tableAddAll` from the
superclass's method table into the subclass's. -/
def opInheritMethodCopy (superclassMethods subclassMethods : Table) : Table :=
  tableAddAll superclassMethods subclassMethods

/-- The full `OP_INHERIT` dispatch: the superclass value sits one below
the subclass on the stack; a non-class superclass raises "Superclass must
be a class." and aborts; otherwise the copy runs and the subclass is
popped, which is summarised by returning the subclass's new method
table. `none` reports the runtime error. -/
def opInheritCheck (superclassValue : Value) (superclassMethods subclassMethods : Table) :
    Option Table :=
  match superclassValue with
  | Value.cls _ => some (opInheritMethodCopy superclassMethods subclassMethods)
  | _ => none

/-- The thirteen single-letter method names g, h, i, j, k, l, m, n, o, p,
q, r, s used by the concrete inheritance scenario. -/
def methodNameBytes : List Nat := [103, 104, 105, 106, 107, 108, 109, 110, 111, 112, 113, 114, 115]

/-- The method-name strings; the (arbitrary, distinct, nonzero) object
addresses reuse the byte value. -/
def methodNames : List ObjString :=
  methodNameBytes.map (fun c => ⟨c, [c], fnv1a32 [c]⟩)

/-- The method table of a superclass declaring the thirteen methods
g .. s in order: each `OP_METHOD` executes `defineMethod`, which is a
`tableSet` of the method name to its closure. -/
def superMethods : Table :=
  methodNames.foldl (fun t k => (tableSet t k (Value.closure k.addr 0)).1) initTable

/-- The subclass method table produced by `OP_INHERIT` from that
superclass into a subclass that declares no methods of its own. -/
def inheritedMethods : Table := opInheritMethodCopy superMethods initTable

/-- The method name "q" (as the compiler would intern it for a lookup;
only its hash enters `findEntry`). -/
def qName : ObjString := ⟨113, [113], fnv1a32 [113]⟩

/-- The globals table after `var liquid = 1;`: a single `tableSet` of the
name "liquid" into an empty table. -/
def liquidName : ObjString := ⟨1, liquidChars, fnv1a32 liquidChars⟩

/-- The name "costarring", a distinct string object (fresh address) whose
FNV-1a hash collides with that of "liquid". -/
def costarringName : ObjString := ⟨2, costarringChars, fnv1a32 costarringChars⟩

/-- Globals state in which only `liquid` has ever been defined. -/
def globalsLiquid : Table := (tableSet initTable liquidName (Value.num 1)).1

/-- `TokenType` from `scanner.h` (only the members `identifierType` can
produce are needed). The receiver token is `TOKEN_EGO`. -/
inductive TokenType where
  | TOKEN_AND
  | TOKEN_CLASS
  | TOKEN_ELSE
  | TOKEN_EGO
  | TOKEN_FALSE
  | TOKEN_FOR
  | TOKEN_FUN
  | TOKEN_IF
  | TOKEN_NIL
  | TOKEN_OR
  | TOKEN_PRINT
  | TOKEN_RETURN
  | TOKEN_SUPER
  | TOKEN_TRUE
  | TOKEN_VAR
  | TOKEN_WHILE
  | TOKEN_IDENTIFIER
deriving DecidableEq, Repr

/-- `checkKeyword` from the scanner: the lexeme (here the whole byte list
`s`) must have exactly `start + length` characters and its bytes from
offset `start` must match `rest` (a bounded `memcmp` of `length` bytes);
then the keyword's token type is produced, otherwise the lexeme is an
ordinary identifier. -/
def checkKeyword (s : List Nat) (start length : Nat) (rest : List Nat)
    (t : TokenType) : TokenType :=
  if s.length = start + length ∧ (s.drop start).take length = rest then t
  else TokenType.TOKEN_IDENTIFIER

/-- The body of the `case 'f':` switch arm of `identifierType`,
factored out because the `case 'e':` arm of the source has no `break`
and falls through into it. An inner-switch miss breaks to the trailing
`return TOKEN_IDENTIFIER`. -/
def identifierTypeFCase (s : List Nat) : TokenType :=
  if 1 < s.length then
    if s.getD 1 0 = 97 then checkKeyword s 2 3 [108, 115, 101] TokenType.TOKEN_FALSE
    else if s.getD 1 0 = 111 then checkKeyword s 2 1 [114] TokenType.TOKEN_FOR
    else if s.getD 1 0 = 117 then checkKeyword s 2 1 [110] TokenType.TOKEN_FUN
    else TokenType.TOKEN_IDENTIFIER
  else TokenType.TOKEN_IDENTIFIER

/-- `identifierType` from the scanner: the keyword trie as a switch on
the first byte of the lexeme. The `case 'e':` arm dispatches on the
second byte for `else` (`'l'`) and the receiver keyword `ego` (`'g'`);
when neither inner case returns — including one-character lexemes — the
missing `break` in the source lets control fall through into the
`case 'f':` arm, which is rendered by calling `identifierTypeFCase`. -/
def identifierType (s : List Nat) : TokenType :=
  let c := s.getD 0 0
  if c = 97 then checkKeyword s 1 2 [110, 100] TokenType.TOKEN_AND
  else if c = 99 then checkKeyword s 1 4 [108, 97, 115, 115] TokenType.TOKEN_CLASS
  else if c = 101 then
    if 1 < s.length then
      if s.getD 1 0 = 108 then checkKeyword s 2 2 [115, 101] TokenType.TOKEN_ELSE
      else if s.getD 1 0 = 103 then checkKeyword s 2 1 [111] TokenType.TOKEN_EGO
      else identifierTypeFCase s
    else identifierTypeFCase s
  else if c = 102 then identifierTypeFCase s
  else if c = 105 then checkKeyword s 1 1 [102] TokenType.TOKEN_IF
  else if c = 110 then checkKeyword s 1 2 [105, 108] TokenType.TOKEN_NIL
  else if c = 111 then checkKeyword s 1 1 [114] TokenType.TOKEN_OR
  else if c = 112 then checkKeyword s 1 4 [114, 105, 110, 116] TokenType.TOKEN_PRINT
  else if c = 114 then checkKeyword s 1 5 [101, 116, 117, 114, 110] TokenType.TOKEN_RETURN
  else if c = 115 then checkKeyword s 1 4 [117, 112, 101, 114] TokenType.TOKEN_SUPER
  else if c = 116 then checkKeyword s 1 3 [114, 117, 101] TokenType.TOKEN_TRUE
  else if c = 118 then checkKeyword s 1 2 [97, 114] TokenType.TOKEN_VAR
  else if c = 119 then checkKeyword s 1 4 [104, 105, 108, 101] TokenType.TOKEN_WHILE
  else TokenType.TOKEN_IDENTIFIER

/-- `FunctionType` from the compiler (the source spells the method member
`TYPE_MEHTOD`). -/
inductive FunctionType where
  | TYPE_FUNCTION
  | TYPE_INITIALIZER
  | TYPE_MEHTOD
  | TYPE_SCRIPT
deriving DecidableEq, Repr

/-- A compiler `Local`: name bytes, scope depth, capture flag. -/
structure Local where
  name : List Nat
  depth : Int
  isCaptured : Bool
deriving DecidableEq, Repr

/-- The slot-zero local synthesized by `initCompiler`: depth 0, not
captured; its name is "ego" for every compiler whose type is not
`TYPE_FUNCTION` (initializers, methods — and scripts), and the empty
name only for plain functions. -/
def slotZeroLocal (type : FunctionType) : Local :=
  { name := if type ≠ FunctionType.TYPE_FUNCTION then egoChars else []
  , depth := 0
  , isCaptured := false }

/-- The `ValueType` tag of `value.h`: `nil`, booleans and numbers are
inline; every heap object is tagged `VAL_OBJ`. -/
inductive ValueType where
  | VAL_BOOL
  | VAL_NIL
  | VAL_NUMBER
  | VAL_OBJ
deriving DecidableEq, Repr

/-- The `type` field of a `Value`. -/
def valueType : Value → ValueType
  | Value.nil => ValueType.VAL_NIL
  | Value.bool _ => ValueType.VAL_BOOL
  | Value.num _ => ValueType.VAL_NUMBER
  | _ => ValueType.VAL_OBJ

/-- `AS_OBJ`: the `Obj*` pointer carried by a `VAL_OBJ` value — in this
model, the referenced object's address. (0 for non-objects; the C macro
is likewise only applied under a `VAL_OBJ` tag.) -/
def AS_OBJ : Value → Nat
  | Value.str s => s.addr
  | Value.closure a _ => a
  | Value.cls a => a
  | Value.inst a => a
  | Value.native a => a
  | Value.fnObj a => a
  | Value.bound a => a
  | _ => 0

/-- `valuesEqual` as linked with the final interpreter (the post-interning
version of `value.c`): values of different type tags compare unequal;
booleans and numbers compare by payload; `nil` equals `nil`; and `VAL_OBJ`
values — strings included — compare by pointer identity
(`AS_OBJ(a) == AS_OBJ(b)`), the source commenting that interning has made
character comparison unnecessary. -/
def valuesEqual (a b : Value) : Bool :=
  if valueType a ≠ valueType b then false
  else
    match a, b with
    | Value.bool x, Value.bool y => x = y
    | Value.nil, Value.nil => true
    | Value.num x, Value.num y => x = y
    | _, _ => AS_OBJ a = AS_OBJ b

/-- The `OP_EQUAL` case of `run` in `vm.c`: pop `b`, pop `a`, push
`BOOL_VAL(valuesEqual(a, b))`. `none` marks a stack underflow, which
compiled bytecode never produces. -/
def opEqual : List Value → Option (List Value)
  | b :: a :: rest => some (Value.bool (valuesEqual a b) :: rest)
  | _ => none

/-- `captureUpvalue` from `vm.c`, acting on the `vm.openUpvales` list
abstracted to its stack-slot locations (higher slot = closer to the stack
top, list head = head of the intrusive list). The walk skips entries whose
location is above the requested slot; an entry at exactly that slot is
reused (the list is unchanged); otherwise a fresh open upvalue is linked
in at the sorted position. -/
def captureUpvalue : List Nat → Nat → List Nat
  | [], slot => [slot]
  | u :: rest, slot =>
    if slot < u then u :: captureUpvalue rest slot
    else if u = slot then u :: rest
    else slot :: u :: rest

/-- `closeUpvalues` from `vm.c`: while the head of the open list points
at a slot at or above `last`, close it (copy the slot into `closed` and
repoint `location`) and unlink it; stop at the first entry below. -/
def closeUpvalues : List Nat → Nat → List Nat
  | [], _ => []
  | u :: rest, last => if last ≤ u then closeUpvalues rest last else u :: rest

/-- The open-upvalue list invariant: strictly decreasing stack slots
(which also gives at most one entry per slot). -/
def SortedOpenList (l : List Nat) : Prop := List.Chain' (fun a b => b < a) l

instance (l : List Nat) : Decidable (SortedOpenList l) :=
  inferInstanceAs (Decidable (List.Chain' (fun a b => b < a) l))

/-- `FRAMES_MAX` from `vm.h`. -/
def FRAMES_MAX : Nat := 64

/-- The outcome of `callValue` on a class, as observed by the dispatch
loop: a runtime error message (the interpreter aborts), a new call frame
pushed for the `init` closure, or — with no `init` and zero arguments —
plain success with the fresh instance left in the callee slot. -/
inductive ClassCallOutcome where
  | rtError (msg : String)
  | framePushed (closureAddr : Nat) (arity : Nat)
  | instanceOnly
deriving DecidableEq, Repr

/-- `call` from `vm.c`, applied to the closure stored under "init":
an argument-count mismatch raises "Expected A arguments but got N.";
a full frame array raises "Stack overflow."; otherwise a frame is pushed
whose slots start at the callee slot. -/
def callClosure (closureAddr arity argCount frameCount : Nat) : ClassCallOutcome :=
  if argCount ≠ arity then
    ClassCallOutcome.rtError
      ("Expected " ++ toString arity ++ " arguments but got " ++ toString argCount ++ ".")
  else if frameCount = FRAMES_MAX then
    ClassCallOutcome.rtError "Stack overflow."
  else ClassCallOutcome.framePushed closureAddr arity

/-- The "init" string interned by `initVM` (`vm.initString`); lookups use
only its hash. -/
def initString : ObjString := ⟨1, initChars, fnv1a32 initChars⟩

/-- The `OBJ_CLASS` case of `callValue` in `vm.c`: the callee slot is
replaced by a fresh instance of the class, then `vm.initString` is looked
up in the class's own method table. A hit calls the initializer closure
with the same argument count; a miss with a nonzero argument count raises
"Expected 0 arguments but got N."; a miss with zero arguments succeeds.
The outer `Option` is `none` when the table probe would not terminate or
the stored initializer is not a closure (the C code would cast garbage
with `AS_CLOSURE`). -/
def callValueClass (methods : Table) (argCount frameCount : Nat) :
    Option ClassCallOutcome :=
  match tableGet methods initString with
  | none => none
  | some (some initializer) =>
    match initializer with
    | Value.closure a arity => some (callClosure a arity argCount frameCount)
    | _ => none
  | some none =>
    if argCount ≠ 0 then
      some (ClassCallOutcome.rtError
        ("Expected 0 arguments but got " ++ toString argCount ++ "."))
    else some ClassCallOutcome.instanceOnly

/-- The outcome of one arithmetic instruction: the possibly updated
string pool and stack, or a runtime error (the dispatch loop returns
`INTERPRET_RUNTIME_ERROR`). -/
inductive StepOut where
  | ok (pool : StringPool) (stack : List Value)
  | rtError (msg : String)
deriving DecidableEq, Repr

/-- `concatenate` from `vm.c`: with two strings on the stack (`b` on
top), build the byte sequence of `a` followed by `b` and pass it to
`takeString`; both operands are popped (they stay on the stack during
the allocation for GC safety) and the result is pushed. -/
def concatenate (p : StringPool) (a b : ObjString) (rest : List Value) : StepOut :=
  let r := takeString p (a.chars ++ b.chars)
  StepOut.ok r.2 (Value.str r.1 :: rest)

/-- The `OP_ADD` case of `run` in `vm.c`: two strings concatenate; two
numbers add; every other combination raises "Operands must be two numbers
or two strings." and aborts interpretation. `none` marks a stack
underflow, which compiled bytecode never produces. -/
def opAdd (p : StringPool) : List Value → Option StepOut
  | Value.str b :: Value.str a :: rest => some (concatenate p a b rest)
  | Value.num b :: Value.num a :: rest => some (StepOut.ok p (Value.num (a + b) :: rest))
  | _ :: _ :: _ => some (StepOut.rtError "Operands must be two numbers or two strings.")
  | _ => none

/-- The `BINARY_OP(NUMBER_VAL, op)` macro of `run` in `vm.c`: unless both
operands are numbers it raises "Operands must be numbers."; otherwise it
pops both and pushes the numeric result. Instantiated by `OP_SUBTRACT`,
`OP_MULTIPLY` and `OP_DIVIDE`. -/
def binaryOpNum (op : Rat → Rat → Rat) (p : StringPool) : List Value → Option StepOut
  | b :: a :: rest =>
    some (match a, b with
      | Value.num x, Value.num y => StepOut.ok p (Value.num (op x y) :: rest)
      | _, _ => StepOut.rtError "Operands must be numbers.")
  | _ => none

/-- The `BINARY_OP(BOOL_VAL, op)` macro instance used by `OP_GREATER`
and `OP_LESS`. -/
def binaryOpBool (op : Rat → Rat → Bool) (p : StringPool) : List Value → Option StepOut
  | b :: a :: rest =>
    some (match a, b with
      | Value.num x, Value.num y => StepOut.ok p (Value.bool (op x y) :: rest)
      | _, _ => StepOut.rtError "Operands must be numbers.")
  | _ => none

/-- `OP_SUBTRACT`. -/
def opSubtract (p : StringPool) (stack : List Value) : Option StepOut :=
  binaryOpNum (fun a b => a - b) p stack

/-- `OP_MULTIPLY`. -/
def opMultiply (p : StringPool) (stack : List Value) : Option StepOut :=
  binaryOpNum (fun a b => a * b) p stack

/-- `OP_DIVIDE` (division by zero follows `Rat`, standing in for the
non-trapping IEEE division; no claim below depends on its value). -/
def opDivide (p : StringPool) (stack : List Value) : Option StepOut :=
  binaryOpNum (fun a b => a / b) p stack

/-- `OP_GREATER`. -/
def opGreater (p : StringPool) (stack : List Value) : Option StepOut :=
  binaryOpBool (fun a b => b < a) p stack

/-- `OP_LESS`. -/
def opLess (p : StringPool) (stack : List Value) : Option StepOut :=
  binaryOpBool (fun a b => a < b) p stack

/-- `markValue` from `memory.c`, abstracted to the object address a value
can reference: only `VAL_OBJ` payloads are heap objects. -/
def valueRefs : Value → List Nat
  | Value.nil => []
  | Value.bool _ => []
  | Value.num _ => []
  | Value.str s => [s.addr]
  | Value.closure a _ => [a]
  | Value.cls a => [a]
  | Value.inst a => [a]
  | Value.native a => [a]
  | Value.fnObj a => [a]
  | Value.bound a => [a]

/-- `markTable` from `table.c`: every bucket contributes its key string
(when present; `markObject(NULL)` is a no-op) and then the addresses
referenced by its value. -/
def markTableRefs (t : Table) : List Nat :=
  t.entries.flatMap
    (fun e =>
      (match e.key with
       | some k => [k.addr]
       | none => []) ++ valueRefs e.val)

/-- The heap objects as the garbage collector sees them, one constructor
per `ObjType`, carrying exactly the fields `blackenObject` traverses. -/
inductive GCObj where
  | objString
  | objNative
  | objFunction (name : Option Nat) (constants : List Value)
  | objClosure (function : Nat) (upvalues : List (Option Nat))
  | objUpvalue (closed : Value)
  | objClass (name : Nat) (methods : Table)
  | objInstance (klass : Nat) (fields : Table)
  | objBoundMethod (receiver : Value) (method : Nat)
deriving DecidableEq, Repr

/-- `blackenObject` from `memory.c`, abstracted to the addresses it
marks: strings and natives have no out-references; a bound method marks
its receiver value and its method closure; a class marks its name and its
method table; a closure marks its function and every (non-NULL) upvalue;
a function marks its name (when present) and every chunk constant; an
instance marks its class and its field table; an upvalue marks its
`closed` value. -/
def blackenRefs : GCObj → List Nat
  | GCObj.objString => []
  | GCObj.objNative => []
  | GCObj.objBoundMethod receiver method => valueRefs receiver ++ [method]
  | GCObj.objClass name methods => [name] ++ markTableRefs methods
  | GCObj.objClosure function upvalues => [function] ++ upvalues.filterMap id
  | GCObj.objFunction name constants =>
    (match name with
     | some a => [a]
     | none => []) ++ constants.flatMap valueRefs
  | GCObj.objInstance klass fields => [klass] ++ markTableRefs fields
  | GCObj.objUpvalue closed => valueRefs closed

/-- The all-objects list `vm.objects`: each element is an address paired
with the object stored there, in list order. -/
abbrev Heap : Type := List (Nat × GCObj)

/-- Dereference an object address on the all-objects list. -/
def heapLookup : Heap → Nat → Option GCObj
  | [], _ => none
  | p :: rest, x => if p.1 = x then some p.2 else heapLookup rest x

/-- The out-references of the object at `x` (no object: none). -/
def refsOf (h : Heap) (x : Nat) : List Nat :=
  match heapLookup h x with
  | some o => blackenRefs o
  | none => []

/-- The roots enumerated by `markRoots` in `memory.c`: every value-stack
slot, every call frame's closure, every open upvalue, the globals table,
every function of the active compiler chain (`markCompilerRoots`), and
the cached `vm.initString` (NULL before `initVM` finishes). -/
structure VMRoots where
  stack : List Value
  frameClosures : List Nat
  openUpvalues : List Nat
  globals : Table
  compilerFunctions : List Nat
  initStringObj : Option Nat
deriving Repr

/-- The addresses marked by `markRoots`, in its marking order. -/
def rootIds (r : VMRoots) : List Nat :=
  r.stack.flatMap valueRefs ++ r.frameClosures ++ r.openUpvalues ++
    markTableRefs r.globals ++ r.compilerFunctions ++
    (match r.initStringObj with
     | some a => [a]
     | none => [])

/-- `markObject` applied to each address of a list in order: an address
whose mark bit is already set is skipped, otherwise it is marked and
pushed on the gray worklist (`vm.grayStack`). The state is (mark bits,
gray stack with its top at the head). -/
def markList (st : Finset Nat × List Nat) (toMark : List Nat) : Finset Nat × List Nat :=
  toMark.foldl
    (fun mg r => if r ∈ mg.1 then mg else (insert r mg.1, r :: mg.2))
    st

/-- `traceReferences` from `memory.c`: until the gray stack empties, pop
an object and blacken it, marking each of its out-references. The fuel
returns the residual state when exhausted; `collectGarbage` passes enough
fuel for the loop to finish (proved below). -/
def traceFuel (h : Heap) : Nat → Finset Nat → List Nat → Finset Nat × List Nat
  | 0, marked, gray => (marked, gray)
  | _ + 1, marked, [] => (marked, [])
  | fuel + 1, marked, g :: gray =>
    let st := markList (marked, gray) (refsOf h g)
    traceFuel h fuel st.1 st.2

/-- `sweep` from `memory.c`: walk the all-objects list; unmarked objects
are unlinked and freed, marked objects survive (with the mark bit cleared
for the next cycle, which the caller records by resetting the mark set). -/
def sweep : Heap → Finset Nat → Heap
  | [], _ => []
  | o :: rest, marked =>
    if o.1 ∈ marked then o :: sweep rest marked else sweep rest marked

/-- Every address that can ever be marked during tracing: the addresses
on the all-objects list together with every reference target any listed
object can yield. -/
def heapUniverse (h : Heap) : List Nat :=
  h.map Prod.fst ++ h.flatMap (fun p => blackenRefs p.2)

/-- Fuel that the termination lemma below proves sufficient for
`traceReferences`: twice the number of addresses that can ever be marked
during tracing plus the initial gray-stack size. -/
def traceFuelBound (h : Heap) (gray : List Nat) : Nat :=
  2 * (heapUniverse h).length + gray.length

/-- The mark phase of `collectGarbage`: `markRoots` (mark every root
address, pushing the fresh ones gray) followed by `traceReferences`. -/
def markPhase (h : Heap) (rootL : List Nat) : Finset Nat :=
  let st0 := markList (∅, []) rootL
  (traceFuel h (traceFuelBound h st0.2) st0.1 st0.2).1

/-- `collectGarbage` from `memory.c`: mark the roots, trace references to
a fixpoint, purge unmarked keys from the weak `vm.strings` table, sweep
the all-objects list, and leave every surviving object unmarked (the
returned mark set is the state of the mark bits after the sweep). The
`nextGC` pacing update carries no object state and is omitted. -/
def collectGarbage (h : Heap) (roots : VMRoots) (strings : Table) :
    Heap × Table × Finset Nat :=
  let marked := markPhase h (rootIds roots)
  let strings1 := tableRemoveWhite strings marked
  (sweep h marked, strings1, ∅)

/-- Reachability from a root set through the references `blackenObject`
traverses, the specification-side notion the collector is measured
against. -/
inductive Reachable (h : Heap) (roots : List Nat) : Nat → Prop where
  | root {x : Nat} : x ∈ roots → Reachable h roots x
  | step {x y : Nat} : Reachable h roots x → y ∈ refsOf h x → Reachable h roots y

/-! ## Helper lemmas -/

/-- In a table whose keys all have nonzero character-array addresses
(every really allocated string does), the `tableFindString` probe can
never take its match branch, because `memcpy(entry->key->chars, ...)`
returns the non-NULL destination pointer: the lookup always reports NULL,
whatever the fuel. -/
theorem tableFindStringAux_none (entries : List Entry) (capacity : Nat)
    (chars : List Nat) (length hash : Nat)
    (hwf : ∀ e ∈ entries, ∀ k, e.key = some k → k.addr ≠ 0) :
    ∀ (fuel index : Nat),
      tableFindStringAux entries capacity chars length hash fuel index = none := by
  intro fuel
  induction fuel with
  | zero => intro index; rfl
  | succ n ih =>
    intro index
    show tableFindStringAux entries capacity chars length hash (n + 1) index = none
    rw [tableFindStringAux]
    rcases hk : (entries.getD index emptyEntry).key with _ | k
    · simp only [hk]
      split
      · rfl
      · exact ih _
    · have hmem : entries.getD index emptyEntry ∈ entries := by
        rcases Nat.lt_or_ge index entries.length with hlt | hge
        · rw [List.getD_eq_getElem _ _ hlt]
          exact List.getElem_mem hlt
        · exfalso
          rw [List.getD_eq_default _ _ hge] at hk
          simp [emptyEntry] at hk
      have hne : k.addr ≠ 0 := hwf _ hmem k hk
      simp only [hk]
      rw [if_neg]
      · exact ih _
      · rintro ⟨-, -, h0⟩
        exact hne h0

/-- `tableFindString` on a well-formed table is always NULL. -/
theorem tableFindString_none (t : Table)
    (hwf : ∀ e ∈ t.entries, ∀ k, e.key = some k → k.addr ≠ 0)
    (chars : List Nat) (length hash : Nat) :
    tableFindString t chars length hash = none := by
  unfold tableFindString
  split
  · rfl
  · exact tableFindStringAux_none t.entries t.capacity chars length hash hwf _ _

/-! ## Claim theorems -/

/-- C1. The interning invariant is violated by the code: starting from an
empty string table, interpreting the literal "a" twice (`copyString` on
the bytes of "a", twice) yields two distinct live String objects with
identical contents. The second lookup (`tableFindString`) returns NULL
even though an identical-contents string is live and sitting in the
table, because the source tests `memcpy(...) == 0` — the never-NULL
destination pointer — instead of `memcmp(...) == 0`. -/
theorem copyString_duplicates_contents :
    (copyString emptyPool aChars).1.chars =
      (copyString (copyString emptyPool aChars).2 aChars).1.chars ∧
    (copyString emptyPool aChars).1.addr ≠
      (copyString (copyString emptyPool aChars).2 aChars).1.addr ∧
    tableFindString (copyString emptyPool aChars).2.strings aChars aChars.length
      (hashString aChars) = none ∧
    ((copyString emptyPool aChars).2.strings.entries.filterMap
      (fun e => e.key)).map ObjString.chars = [aChars] := by
  decide

/-- C2. String equality under `==` does not coincide with content
equality in the program: the final `valuesEqual` compares `VAL_OBJ`
values by pointer identity, which is sound only while interning
deduplicates strings — and interning is broken (C1). Concretely, the two
String objects produced by evaluating the literal "a" twice have equal
contents but distinct addresses, `valuesEqual` on them is `false`, and
`OP_EQUAL` pushes `false`; the same object compared with itself still
pushes `true`. -/
theorem opEqual_same_text_strings_unequal :
    (copyString emptyPool aChars).1.chars =
      (copyString (copyString emptyPool aChars).2 aChars).1.chars ∧
    (copyString emptyPool aChars).1.addr ≠
      (copyString (copyString emptyPool aChars).2 aChars).1.addr ∧
    valuesEqual (Value.str (copyString emptyPool aChars).1)
      (Value.str (copyString (copyString emptyPool aChars).2 aChars).1) = false ∧
    opEqual (Value.str (copyString (copyString emptyPool aChars).2 aChars).1 ::
        Value.str (copyString emptyPool aChars).1 :: []) =
      some (Value.bool false :: []) ∧
    valuesEqual (Value.str (copyString emptyPool aChars).1)
      (Value.str (copyString emptyPool aChars).1) = true := by
  decide

/-- C3. `OP_INHERIT` does not copy every method present in the
superclass's table. Concrete run: a superclass declaring the thirteen
one-letter methods g .. s ends up (through the buggy rehash that re-reads
`entries[1]`) with seven live methods, among them "q"; copying that table
into a fresh subclass table grows the destination mid-copy and the same
rehash bug drops "q" (and four others): after `OP_INHERIT` the lookup of
"q" through the subclass fails although it succeeds on the superclass. -/
theorem opInherit_drops_method :
    tableGet superMethods qName = some (some (Value.closure 113 0)) ∧
    tableGet inheritedMethods qName = some none := by
  decide

/-- C9. The error path of `OP_SET_GLOBAL` is not reached for every
undefined name: with only `liquid` ever defined, assigning to the name
"costarring" — never defined, different spelling — raises no runtime
error at all, because `findEntry` compares keys by `hash` only and the
FNV-1a hashes of "liquid" and "costarring" collide; the store silently
overwrites the `liquid` bucket and the new binding is visible to
subsequent lookups of either name. -/
theorem opSetGlobal_hash_collision_no_error :
    fnv1a32 liquidChars = fnv1a32 costarringChars ∧
    liquidChars ≠ costarringChars ∧
    globalsLiquid.entries.filterMap (fun e => e.key) = [liquidName] ∧
    (opSetGlobal globalsLiquid costarringName (Value.num 2)).2 = false ∧
    tableGet (opSetGlobal globalsLiquid costarringName (Value.num 2)).1 costarringName =
      some (some (Value.num 2)) ∧
    tableGet (opSetGlobal globalsLiquid costarringName (Value.num 2)).1 liquidName =
      some (some (Value.num 2)) := by
  decide

/-- C7 counterexample. The claim fails on the code: the lexeme spelled
t-h-i-s is scanned as an ordinary identifier, not as the receiver token,
and the slot-zero local of a script compiler carries the name "ego", not
the empty name. -/
theorem receiver_keyword_claim_false :
    identifierType thisChars = TokenType.TOKEN_IDENTIFIER ∧
    TokenType.TOKEN_IDENTIFIER ≠ TokenType.TOKEN_EGO ∧
    (slotZeroLocal FunctionType.TYPE_SCRIPT).name = egoChars ∧
    egoChars ≠ ([] : List Nat) := by
  decide

/-- C7 as amended. The receiver keyword is spelled e-g-o: the scanner
classifies "ego" as the receiver token `TOKEN_EGO` while "this" scans as
an identifier; and `initCompiler` binds slot zero (depth 0, not captured)
under the name "ego" for every compiler whose type is not
`TYPE_FUNCTION` — methods, initializers and scripts alike — giving the
empty name only to plain functions, all without any user declaration. -/
theorem receiver_keyword_ego_semantics :
    identifierType egoChars = TokenType.TOKEN_EGO ∧
    identifierType thisChars = TokenType.TOKEN_IDENTIFIER ∧
    (slotZeroLocal FunctionType.TYPE_MEHTOD).name = egoChars ∧
    (slotZeroLocal FunctionType.TYPE_INITIALIZER).name = egoChars ∧
    (slotZeroLocal FunctionType.TYPE_SCRIPT).name = egoChars ∧
    (slotZeroLocal FunctionType.TYPE_FUNCTION).name = ([] : List Nat) ∧
    (∀ t : FunctionType, (slotZeroLocal t).depth = 0 ∧ (slotZeroLocal t).isCaptured = false) := by
  refine ⟨by decide, by decide, by decide, by decide, by decide, by decide, ?_⟩
  intro t
  cases t <;> exact ⟨rfl, rfl⟩

/-- C10. The missing `break` after the `case 'e':` arm of
`identifierType` makes the trie fall through into the `case 'f':` arm:
the identifiers "eor", "eun" and "ealse" scan as the keyword tokens of
`for`, `fun` and `false` instead of identifier tokens. -/
theorem identifierType_e_fallthrough :
    identifierType [101, 111, 114] = TokenType.TOKEN_FOR ∧
    identifierType [101, 117, 110] = TokenType.TOKEN_FUN ∧
    identifierType [101, 97, 108, 115, 101] = TokenType.TOKEN_FALSE := by
  decide

/-- C5. Semantics of `OP_ADD` and of the other `BINARY_OP` instances:
two numbers add; two strings concatenate left-then-right into a fresh
string (the hypothesis says every key already interned has a real,
non-NULL character buffer); any other combination raises "Operands must
be two numbers or two strings." and the interpreter returns the
runtime-error outcome; and SUBTRACT, MULTIPLY, DIVIDE, GREATER, LESS all
raise "Operands must be numbers." unless both operands are numbers. -/
theorem opAdd_binary_op_semantics :
    (∀ (p : StringPool) (x y : Rat) (rest : List Value),
      opAdd p (Value.num y :: Value.num x :: rest) =
        some (StepOut.ok p (Value.num (x + y) :: rest))) ∧
    (∀ (p : StringPool) (a b : ObjString) (rest : List Value),
      (∀ e ∈ p.strings.entries, ∀ k, e.key = some k → k.addr ≠ 0) →
      ∃ (s : ObjString) (p1 : StringPool),
        opAdd p (Value.str b :: Value.str a :: rest) =
          some (StepOut.ok p1 (Value.str s :: rest)) ∧
        s.chars = a.chars ++ b.chars ∧ s.addr ≠ 0) ∧
    (∀ (p : StringPool) (v1 v2 : Value) (rest : List Value),
      ¬(isString v2 = true ∧ isString v1 = true) →
      ¬(isNumber v2 = true ∧ isNumber v1 = true) →
      opAdd p (v2 :: v1 :: rest) =
        some (StepOut.rtError "Operands must be two numbers or two strings.")) ∧
    (∀ (p : StringPool) (v1 v2 : Value) (rest : List Value),
      ¬(isNumber v2 = true ∧ isNumber v1 = true) →
      opSubtract p (v2 :: v1 :: rest) = some (StepOut.rtError "Operands must be numbers.") ∧
      opMultiply p (v2 :: v1 :: rest) = some (StepOut.rtError "Operands must be numbers.") ∧
      opDivide p (v2 :: v1 :: rest) = some (StepOut.rtError "Operands must be numbers.") ∧
      opGreater p (v2 :: v1 :: rest) = some (StepOut.rtError "Operands must be numbers.") ∧
      opLess p (v2 :: v1 :: rest) = some (StepOut.rtError "Operands must be numbers.")) := by
  refine ⟨fun p x y rest => rfl, ?_, ?_, ?_⟩
  · intro p a b rest hwf
    refine ⟨⟨p.nextAddr + 1, a.chars ++ b.chars, hashString (a.chars ++ b.chars)⟩,
      ⟨p.nextAddr + 1, (tableSet p.strings
        ⟨p.nextAddr + 1, a.chars ++ b.chars, hashString (a.chars ++ b.chars)⟩ Value.nil).1⟩,
      ?_, rfl, Nat.succ_ne_zero _⟩
    show some (concatenate p a b rest) = _
    rw [concatenate, takeString, tableFindString_none p.strings hwf]
    rfl
  · intro p v1 v2 rest hs hn
    cases v2 <;> cases v1 <;> simp_all [opAdd, isString, isNumber]
  · intro p v1 v2 rest hn
    cases v2 <;> cases v1 <;>
      simp_all [opSubtract, opMultiply, opDivide, opGreater, opLess,
        binaryOpNum, binaryOpBool, isNumber]

/-- Witness for C5 at concrete inputs: `1 + 2` pushes `3`; `"a" + "a"`
pushes a fresh string `"aa"`; `nil + 1` and `1 - nil` raise their
respective errors. -/
theorem opAdd_binary_op_semantics_witness :
    opAdd emptyPool (Value.num 2 :: Value.num 1 :: []) =
      some (StepOut.ok emptyPool (Value.num 3 :: [])) ∧
    (∃ (s : ObjString) (p1 : StringPool),
      opAdd emptyPool (Value.str ⟨1, aChars, hashString aChars⟩ ::
          Value.str ⟨1, aChars, hashString aChars⟩ :: []) =
        some (StepOut.ok p1 (Value.str s :: [])) ∧
      s.chars = aChars ++ aChars ∧ s.addr ≠ 0) ∧
    opAdd emptyPool (Value.num 1 :: Value.nil :: []) =
      some (StepOut.rtError "Operands must be two numbers or two strings.") ∧
    opSubtract emptyPool (Value.nil :: Value.num 1 :: []) =
      some (StepOut.rtError "Operands must be numbers.") := by
  refine ⟨?_, ?_, ?_, ?_⟩
  · have h := opAdd_binary_op_semantics.1 emptyPool 1 2 []
    rw [h]; norm_num
  · exact opAdd_binary_op_semantics.2.1 emptyPool
      ⟨1, aChars, hashString aChars⟩ ⟨1, aChars, hashString aChars⟩ []
      (by intro e he k hk; simp [emptyPool, initTable] at he)
  · exact opAdd_binary_op_semantics.2.2.1 emptyPool Value.nil (Value.num 1) []
      (by decide) (by decide)
  · exact (opAdd_binary_op_semantics.2.2.2 emptyPool (Value.num 1) Value.nil []
      (by decide)).1

/-- The parser's method-name string for an `init` method of a parent
class; a distinct heap object from `vm.initString` (the string table
never deduplicates them), but with the same bytes and hash. -/
def parentInitName : ObjString := ⟨3, initChars, fnv1a32 initChars⟩

/-- The method table of a parent class declaring `init(a, b)` (arity 2)
and nothing else, built by `defineMethod`'s `tableSet`. -/
def parentWithInit : Table := (tableSet initTable parentInitName (Value.closure 7 2)).1

/-- The method table of a subclass of that parent that declares no
methods of its own, right after `OP_INHERIT`. -/
def inheritedInit : Table := opInheritMethodCopy parentWithInit initTable

/-- C8. Calling a class looks "init" up in that class's own method table
(under `vm.initString`): a hit dispatches `call` on the stored closure,
so the call succeeds only with exactly the closure's arity (and a free
frame slot), while a miss requires zero arguments, anything else raising
"Expected 0 arguments but got N.". After `OP_INHERIT`, the table of a
subclass that defines no `init` of its own contains the parent's `init`
closure — concretely, the arity-2 parent initializer is found through
the subclass — so the parent's arity applies. -/
theorem classCall_init_lookup_arity (methods : Table) (argc fc ca ar : Nat) :
    (tableGet methods initString = some (some (Value.closure ca ar)) →
      callValueClass methods argc fc =
        some (if argc ≠ ar then
                ClassCallOutcome.rtError
                  ("Expected " ++ toString ar ++ " arguments but got " ++
                    toString argc ++ ".")
              else if fc = FRAMES_MAX then ClassCallOutcome.rtError "Stack overflow."
              else ClassCallOutcome.framePushed ca ar)) ∧
    (tableGet methods initString = some none →
      callValueClass methods argc fc =
        some (if argc ≠ 0 then
                ClassCallOutcome.rtError
                  ("Expected 0 arguments but got " ++ toString argc ++ ".")
              else ClassCallOutcome.instanceOnly)) ∧
    tableGet inheritedInit initString = some (some (Value.closure 7 2)) := by
  refine ⟨?_, ?_, by decide⟩
  · intro h
    simp only [callValueClass, h, callClosure]
  · intro h
    simp only [callValueClass, h]
    split <;> simp [*]

/-- Witness for C8: through the inherited table, a call with the
parent's arity 2 pushes a frame, and a zero-argument call fails with
"Expected 2 arguments but got 0.". -/
theorem classCall_init_lookup_arity_witness :
    callValueClass inheritedInit 2 1 = some (ClassCallOutcome.framePushed 7 2) ∧
    callValueClass inheritedInit 0 1 =
      some (ClassCallOutcome.rtError "Expected 2 arguments but got 0.") := by
  have h2 := (classCall_init_lookup_arity inheritedInit 2 1 7 2).1 (by decide)
  have h0 := (classCall_init_lookup_arity inheritedInit 0 1 7 2).1 (by decide)
  rw [h2, h0]
  exact ⟨by decide, by decide⟩

instance : IsTrans Nat (fun a b => b < a) :=
  ⟨fun _ _ _ h1 h2 => Nat.lt_trans h2 h1⟩

/-- In a sorted open-upvalue list, every element after the head lies
strictly below it. -/
theorem sortedOpenList_head_gt (u : Nat) (rest : List Nat)
    (h : SortedOpenList (u :: rest)) : ∀ x ∈ rest, x < u := by
  have hp := (List.chain'_iff_pairwise (R := fun a b => b < a)).mp h
  exact (List.pairwise_cons.mp hp).1

/-- The head of the list after `captureUpvalue` is either the old head
or the inserted slot, so it stays below any bound dominating both. -/
theorem captureUpvalue_head_lt (rest : List Nat) (slot u : Nat) (hs : slot < u)
    (hh : ∀ x ∈ rest.head?, x < u) :
    ∀ x ∈ (captureUpvalue rest slot).head?, x < u := by
  cases rest with
  | nil =>
    intro x hx
    simp only [captureUpvalue, List.head?] at hx
    cases hx
    exact hs
  | cons r rs =>
    intro x hx
    have hr : r < u := hh r rfl
    by_cases h1 : slot < r
    · rw [show captureUpvalue (r :: rs) slot =
          r :: captureUpvalue rs slot from by rw [captureUpvalue, if_pos h1]] at hx
      cases hx
      exact hr
    · by_cases h2 : r = slot
      · rw [show captureUpvalue (r :: rs) slot = r :: rs from by
          rw [captureUpvalue, if_neg h1, if_pos h2]] at hx
        cases hx
        exact hr
      · rw [show captureUpvalue (r :: rs) slot = slot :: r :: rs from by
          rw [captureUpvalue, if_neg h1, if_neg h2]] at hx
        cases hx
        exact hs

/-- `captureUpvalue` keeps the open-upvalue list sorted by strictly
decreasing stack slot. -/
theorem captureUpvalue_sorted (l : List Nat) (slot : Nat) (h : SortedOpenList l) :
    SortedOpenList (captureUpvalue l slot) := by
  induction l with
  | nil => simp [captureUpvalue, SortedOpenList]
  | cons u rest ih =>
    rw [SortedOpenList, List.chain'_cons'] at h
    by_cases h1 : slot < u
    · rw [show captureUpvalue (u :: rest) slot =
          u :: captureUpvalue rest slot from by rw [captureUpvalue, if_pos h1]]
      rw [SortedOpenList, List.chain'_cons']
      exact ⟨captureUpvalue_head_lt rest slot u h1 h.1, ih h.2⟩
    · by_cases h2 : u = slot
      · rw [show captureUpvalue (u :: rest) slot = u :: rest from by
          rw [captureUpvalue, if_neg h1, if_pos h2]]
        rw [SortedOpenList, List.chain'_cons']
        exact h
      · rw [show captureUpvalue (u :: rest) slot = slot :: u :: rest from by
          rw [captureUpvalue, if_neg h1, if_neg h2]]
        rw [SortedOpenList, List.chain'_cons']
        refine ⟨?_, List.chain'_cons'.mpr h⟩
        intro y hy
        cases hy
        omega
  
/-- A sorted open-upvalue list has no duplicate slots. -/
theorem sortedOpenList_nodup (l : List Nat) (h : SortedOpenList l) : l.Nodup := by
  have hp := (List.chain'_iff_pairwise (R := fun a b => b < a)).mp h
  exact hp.imp (fun hlt => Nat.ne_of_gt hlt)

/-- When an open upvalue for the requested slot already exists in a
sorted list, `captureUpvalue` reuses it: the list is unchanged and no
new upvalue is created. -/
theorem captureUpvalue_mem_eq (l : List Nat) (slot : Nat)
    (h : SortedOpenList l) (hm : slot ∈ l) : captureUpvalue l slot = l := by
  induction l with
  | nil => cases hm
  | cons u rest ih =>
    rcases List.mem_cons.mp hm with heq | hm'
    · rw [captureUpvalue, if_neg (by omega), if_pos heq.symm]
    · have hlt : slot < u := sortedOpenList_head_gt u rest h slot hm'
      rw [captureUpvalue, if_pos hlt,
        ih ((List.chain'_cons'.mp h).2) hm']

/-- `closeUpvalues` removes exactly the longest prefix of entries at or
above the threshold slot. -/
theorem closeUpvalues_eq_dropWhile (l : List Nat) (last : Nat) :
    closeUpvalues l last = l.dropWhile (fun u => last ≤ u) := by
  induction l with
  | nil => rfl
  | cons u rest ih =>
    rw [closeUpvalues, List.dropWhile_cons]
    by_cases hle : last ≤ u <;> simp [hle, ih]

/-- `closeUpvalues` preserves sortedness. -/
theorem closeUpvalues_sorted (l : List Nat) (last : Nat) (h : SortedOpenList l) :
    SortedOpenList (closeUpvalues l last) := by
  induction l with
  | nil => exact h
  | cons u rest ih =>
    rw [closeUpvalues]
    split
    · exact ih ((List.chain'_cons'.mp h).2)
    · exact h

/-- After `closeUpvalues`, every remaining open upvalue lies strictly
below the threshold (on a sorted list). -/
theorem closeUpvalues_below (l : List Nat) (last : Nat) (h : SortedOpenList l) :
    ∀ u ∈ closeUpvalues l last, u < last := by
  induction l with
  | nil => intro u hu; cases hu
  | cons v rest ih =>
    rw [closeUpvalues]
    split
    · exact ih ((List.chain'_cons'.mp h).2)
    · intro u hu
      rcases List.mem_cons.mp hu with rfl | hu'
      · omega
      · have := sortedOpenList_head_gt v rest h u hu'
        omega

/-- C6. The open-upvalue list invariant: on a list sorted by strictly
decreasing stack slot, `captureUpvalue` preserves sortedness (hence at
most one open upvalue per slot, i.e. no duplicates), reuses the existing
upvalue — leaving the list unchanged — whenever one exists for the
requested slot; and `closeUpvalues` removes exactly the prefix of
entries at or above the threshold, preserving sortedness, with every
survivor strictly below the threshold. -/
theorem openUpvalue_list_invariant (l : List Nat) (slot last : Nat) :
    (SortedOpenList l → SortedOpenList (captureUpvalue l slot)) ∧
    (SortedOpenList l → (captureUpvalue l slot).Nodup) ∧
    (SortedOpenList l → slot ∈ l → captureUpvalue l slot = l) ∧
    closeUpvalues l last = l.dropWhile (fun u => last ≤ u) ∧
    (SortedOpenList l → SortedOpenList (closeUpvalues l last)) ∧
    (SortedOpenList l → ∀ u ∈ closeUpvalues l last, u < last) := by
  refine ⟨fun h => captureUpvalue_sorted l slot h,
    fun h => sortedOpenList_nodup _ (captureUpvalue_sorted l slot h),
    fun h hm => captureUpvalue_mem_eq l slot h hm,
    closeUpvalues_eq_dropWhile l last,
    fun h => closeUpvalues_sorted l last h,
    fun h => closeUpvalues_below l last h⟩

/-- Witness for C6 on the concrete list of open slots `[5, 3, 1]`:
capturing slot 2 inserts it in sorted position; capturing slot 3 reuses
the existing upvalue; closing at threshold 3 unlinks exactly `[5, 3]`. -/
theorem openUpvalue_list_invariant_witness :
    SortedOpenList [5, 3, 1] ∧
    SortedOpenList (captureUpvalue [5, 3, 1] 2) ∧
    captureUpvalue [5, 3, 1] 3 = [5, 3, 1] ∧
    SortedOpenList (closeUpvalues [5, 3, 1] 3) ∧
    (∀ u ∈ closeUpvalues [5, 3, 1] 3, u < 3) := by
  have hs : SortedOpenList [5, 3, 1] := by
    simp [SortedOpenList]
  refine ⟨hs,
    (openUpvalue_list_invariant [5, 3, 1] 2 3).1 hs,
    (openUpvalue_list_invariant [5, 3, 1] 3 3).2.2.1 hs (by decide),
    (openUpvalue_list_invariant [5, 3, 1] 2 3).2.2.2.2.1 hs,
    (openUpvalue_list_invariant [5, 3, 1] 2 3).2.2.2.2.2 hs⟩

/-- A successful `heapLookup` finds a pair on the list. -/
theorem heapLookup_mem (h : Heap) (x : Nat) (o : GCObj)
    (hl : heapLookup h x = some o) : (x, o) ∈ h := by
  induction h with
  | nil => cases hl
  | cons p rest ih =>
    rw [heapLookup] at hl
    split at hl
    · rename_i heq
      cases hl
      rcases p with ⟨a, b⟩
      cases heq
      exact List.mem_cons_self _ _
    · exact List.mem_cons_of_mem _ (ih hl)

/-- Every reference target lies in the heap universe. -/
theorem refsOf_mem_universe (h : Heap) (x y : Nat) (hy : y ∈ refsOf h x) :
    y ∈ (heapUniverse h).toFinset := by
  rw [refsOf] at hy
  rcases hl : heapLookup h x with _ | o
  · rw [hl] at hy; cases hy
  · rw [hl] at hy
    rw [List.mem_toFinset, heapUniverse, List.mem_append]
    refine Or.inr ?_
    rw [List.mem_flatMap]
    exact ⟨(x, o), heapLookup_mem h x o hl, hy⟩

/-- Unfolding `markList` over a cons cell. -/
theorem markList_cons (st : Finset Nat × List Nat) (r : Nat) (L : List Nat) :
    markList st (r :: L) =
      markList (if r ∈ st.1 then st else (insert r st.1, r :: st.2)) L := rfl

/-- An address is marked by `markList` exactly when it was already
marked or is listed. -/
theorem markList_fst_mem (st : Finset Nat × List Nat) (L : List Nat) (x : Nat) :
    x ∈ (markList st L).1 ↔ x ∈ st.1 ∨ x ∈ L := by
  induction L generalizing st with
  | nil => simp [markList]
  | cons r L ih =>
    rw [markList_cons]
    by_cases hr : r ∈ st.1
    · rw [if_pos hr, ih]
      simp only [List.mem_cons]
      constructor
      · rintro (hx | hx)
        · exact Or.inl hx
        · exact Or.inr (Or.inr hx)
      · rintro (hx | rfl | hx)
        · exact Or.inl hx
        · exact Or.inl hr
        · exact Or.inr hx
    · rw [if_neg hr, ih]
      simp only [Finset.mem_insert, List.mem_cons]
      tauto

/-- `markList` never removes gray entries. -/
theorem markList_snd_superset (st : Finset Nat × List Nat) (L : List Nat) :
    ∀ x ∈ st.2, x ∈ (markList st L).2 := by
  induction L generalizing st with
  | nil => intro x hx; exact hx
  | cons r L ih =>
    intro x hx
    rw [markList_cons]
    by_cases hr : r ∈ st.1
    · rw [if_pos hr]; exact ih st x hx
    · rw [if_neg hr]; exact ih _ x (List.mem_cons_of_mem r hx)

/-- `markList` keeps the gray worklist inside the mark set. -/
theorem markList_snd_sub_fst (st : Finset Nat × List Nat) (L : List Nat)
    (hst : ∀ x ∈ st.2, x ∈ st.1) :
    ∀ x ∈ (markList st L).2, x ∈ (markList st L).1 := by
  induction L generalizing st with
  | nil => exact hst
  | cons r L ih =>
    rw [markList_cons]
    by_cases hr : r ∈ st.1
    · rw [if_pos hr]; exact ih st hst
    · rw [if_neg hr]
      refine ih _ ?_
      intro x hx
      rcases List.mem_cons.mp hx with rfl | hx'
      · exact Finset.mem_insert_self _ _
      · exact Finset.mem_insert_of_mem (hst x hx')

/-- An address newly marked by `markList` was pushed gray. -/
theorem markList_new_mem_snd (st : Finset Nat × List Nat) (L : List Nat) (x : Nat)
    (hx : x ∈ (markList st L).1) (hnx : x ∉ st.1) : x ∈ (markList st L).2 := by
  induction L generalizing st with
  | nil => exact absurd hx hnx
  | cons r L ih =>
    rw [markList_cons] at hx ⊢
    by_cases hr : r ∈ st.1
    · rw [if_pos hr] at hx ⊢
      exact ih st hx hnx
    · rw [if_neg hr] at hx ⊢
      by_cases hxr : x = r
      · subst hxr
        exact markList_snd_superset _ L x (List.mem_cons_self _ _)
      · refine ih _ hx ?_
        simp only [Finset.mem_insert]
        rintro (h1 | h1)
        · exact hxr h1
        · exact hnx h1

/-- The termination measure `2 · |universe \ marked| + |gray|` never
increases across `markList` when the listed addresses lie in the
universe. -/
theorem markList_measure (UF : Finset Nat) (st : Finset Nat × List Nat)
    (L : List Nat) (hL : ∀ x ∈ L, x ∈ UF) :
    2 * (UF \ (markList st L).1).card + (markList st L).2.length ≤
      2 * (UF \ st.1).card + st.2.length := by
  induction L generalizing st with
  | nil => exact Nat.le_refl _
  | cons r L ih =>
    rw [markList_cons]
    by_cases hr : r ∈ st.1
    · rw [if_pos hr]
      exact ih st (fun x hx => hL x (List.mem_cons_of_mem r hx))
    · rw [if_neg hr]
      have step := ih (insert r st.1, r :: st.2)
        (fun x hx => hL x (List.mem_cons_of_mem r hx))
      have h1 : UF \ insert r st.1 = (UF \ st.1).erase r := by
        ext y
        simp only [Finset.mem_sdiff, Finset.mem_insert, Finset.mem_erase]
        tauto
      have h2 : r ∈ UF \ st.1 :=
        Finset.mem_sdiff.mpr ⟨hL r (List.mem_cons_self _ _), hr⟩
      have h3 : ((UF \ st.1).erase r).card = (UF \ st.1).card - 1 :=
        Finset.card_erase_of_mem h2
      have h4 : 1 ≤ (UF \ st.1).card := Finset.card_pos.mpr ⟨r, h2⟩
      rw [h1] at step
      simp only [List.length_cons] at step
      omega

/-- Unfolding `traceFuel` on a nonempty gray stack. -/
theorem traceFuel_cons (h : Heap) (fuel : Nat) (marked : Finset Nat)
    (g : Nat) (gray : List Nat) :
    traceFuel h (fuel + 1) marked (g :: gray) =
      traceFuel h fuel (markList (marked, gray) (refsOf h g)).1
        (markList (marked, gray) (refsOf h g)).2 := rfl

/-- Tracing only grows the mark set. -/
theorem traceFuel_fst_mono (h : Heap) (fuel : Nat) (marked : Finset Nat)
    (gray : List Nat) (x : Nat) (hx : x ∈ marked) :
    x ∈ (traceFuel h fuel marked gray).1 := by
  induction fuel generalizing marked gray with
  | zero => exact hx
  | succ n ih =>
    cases gray with
    | nil => exact hx
    | cons g gr =>
      rw [traceFuel_cons]
      exact ih _ _ ((markList_fst_mem (marked, gr) (refsOf h g) x).mpr (Or.inl hx))

/-- With fuel at least the measure `2 · |universe \ marked| + |gray|`,
tracing drains the gray stack completely. -/
theorem traceFuel_gray_nil (h : Heap) (UF : Finset Nat)
    (hrefs : ∀ x y, y ∈ refsOf h x → y ∈ UF) :
    ∀ (fuel : Nat) (marked : Finset Nat) (gray : List Nat),
      2 * (UF \ marked).card + gray.length ≤ fuel →
      (traceFuel h fuel marked gray).2 = [] := by
  intro fuel
  induction fuel with
  | zero =>
    intro marked gray hle
    have hg : gray = [] := List.length_eq_zero.mp (by omega)
    subst hg
    rfl
  | succ n ih =>
    intro marked gray hle
    cases gray with
    | nil => rfl
    | cons g gr =>
      rw [traceFuel_cons]
      apply ih
      have hm := markList_measure UF (marked, gr) (refsOf h g)
        (fun y hy => hrefs g y hy)
      dsimp only at hm
      simp only [List.length_cons] at hle
      omega

/-- Everything marked during tracing is reachable, provided everything
already marked is and the gray stack is inside the mark set. -/
theorem traceFuel_sound (h : Heap) (roots : List Nat) :
    ∀ (fuel : Nat) (marked : Finset Nat) (gray : List Nat),
      (∀ x ∈ marked, Reachable h roots x) →
      (∀ x ∈ gray, x ∈ marked) →
      ∀ x ∈ (traceFuel h fuel marked gray).1, Reachable h roots x := by
  intro fuel
  induction fuel with
  | zero => intro marked gray hm _ x hx; exact hm x hx
  | succ n ih =>
    intro marked gray hm hg
    cases gray with
    | nil => exact hm
    | cons g gr =>
      rw [traceFuel_cons]
      refine ih _ _ ?_ ?_
      · intro x hx
        rcases (markList_fst_mem (marked, gr) (refsOf h g) x).mp hx with hx1 | hx1
        · exact hm x hx1
        · exact Reachable.step (hm g (hg g (List.mem_cons_self _ _))) hx1
      · exact markList_snd_sub_fst (marked, gr) (refsOf h g)
          (fun x hx => hg x (List.mem_cons_of_mem g hx))

/-- When tracing drains the gray stack, the final mark set is closed
under references, provided every black (marked, not gray) address
already was. -/
theorem traceFuel_closed (h : Heap) :
    ∀ (fuel : Nat) (marked : Finset Nat) (gray : List Nat),
      (∀ x ∈ marked, x ∉ gray → ∀ y ∈ refsOf h x, y ∈ marked) →
      (traceFuel h fuel marked gray).2 = [] →
      ∀ x ∈ (traceFuel h fuel marked gray).1, ∀ y ∈ refsOf h x,
        y ∈ (traceFuel h fuel marked gray).1 := by
  intro fuel
  induction fuel with
  | zero =>
    intro marked gray hinv hnil x hx y hy
    have hg : gray = [] := hnil
    exact hinv x hx (by rw [hg]; exact List.not_mem_nil x) y hy
  | succ n ih =>
    intro marked gray hinv hnil
    cases gray with
    | nil =>
      intro x hx y hy
      exact hinv x hx (List.not_mem_nil x) y hy
    | cons g gr =>
      rw [traceFuel_cons] at hnil ⊢
      refine ih _ _ ?_ hnil
      intro x hx hngray y hy
      by_cases hxg : x = g
      · subst hxg
        exact (markList_fst_mem (marked, gr) (refsOf h x) y).mpr (Or.inr hy)
      · by_cases hxm : x ∈ marked
        · have hxnot : x ∉ g :: gr := by
            intro hmem
            rcases List.mem_cons.mp hmem with h1 | h1
            · exact hxg h1
            · exact hngray (markList_snd_superset (marked, gr) (refsOf h g) x h1)
          exact (markList_fst_mem (marked, gr) (refsOf h g) y).mpr
            (Or.inl (hinv x hxm hxnot y hy))
        · exact absurd (markList_new_mem_snd (marked, gr) (refsOf h g) x hx hxm) hngray

/-- Everything reachable lands in a root-containing, reference-closed
mark set. -/
theorem reachable_mem_closed (h : Heap) (roots : List Nat) (marked : Finset Nat)
    (hroots : ∀ x ∈ roots, x ∈ marked)
    (hclosed : ∀ x ∈ marked, ∀ y ∈ refsOf h x, y ∈ marked) :
    ∀ x, Reachable h roots x → x ∈ marked := by
  intro x hx
  induction hx with
  | root hr => exact hroots _ hr
  | step _ hy ih => exact hclosed _ ih _ hy

/-- `sweep` keeps exactly the marked objects, in order. -/
theorem sweep_mem (h : Heap) (marked : Finset Nat) (p : Nat × GCObj) :
    p ∈ sweep h marked ↔ p ∈ h ∧ p.1 ∈ marked := by
  induction h with
  | nil => simp [sweep]
  | cons q rest ih =>
    rw [sweep]
    by_cases hq : q.1 ∈ marked
    · rw [if_pos hq]
      simp only [List.mem_cons, ih]
      constructor
      · rintro (rfl | ⟨h1, h2⟩)
        · exact ⟨Or.inl rfl, hq⟩
        · exact ⟨Or.inr h1, h2⟩
      · rintro ⟨rfl | h1, h2⟩
        · exact Or.inl rfl
        · exact Or.inr ⟨h1, h2⟩
    · rw [if_neg hq]
      rw [ih]
      constructor
      · rintro ⟨h1, h2⟩
        exact ⟨List.mem_cons_of_mem q h1, h2⟩
      · rintro ⟨h1, h2⟩
        rcases List.mem_cons.mp h1 with rfl | h1'
        · exact absurd h2 hq
        · exact ⟨h1', h2⟩

/-- The mark phase computes exactly reachability from the roots. -/
theorem markPhase_iff_reachable (h : Heap) (rootL : List Nat) (x : Nat) :
    x ∈ markPhase h rootL ↔ Reachable h rootL x := by
  have hUF : ∀ a y, y ∈ refsOf h a → y ∈ (heapUniverse h).toFinset :=
    refsOf_mem_universe h
  have hnil : (traceFuel h (traceFuelBound h (markList (∅, []) rootL).2)
      (markList (∅, []) rootL).1 (markList (∅, []) rootL).2).2 = [] := by
    apply traceFuel_gray_nil h _ hUF
    have hcard : ((heapUniverse h).toFinset \ (markList (∅, []) rootL).1).card ≤
        (heapUniverse h).length :=
      Nat.le_trans (Finset.card_le_card (Finset.sdiff_subset))
        (List.toFinset_card_le _)
    rw [traceFuelBound]
    omega
  have hroots : ∀ a ∈ rootL, a ∈ markPhase h rootL := by
    intro a ha
    exact traceFuel_fst_mono h _ _ _ a
      ((markList_fst_mem (∅, []) rootL a).mpr (Or.inr ha))
  have hclosed : ∀ a ∈ markPhase h rootL, ∀ y ∈ refsOf h a, y ∈ markPhase h rootL := by
    refine traceFuel_closed h _ _ _ ?_ hnil
    intro a ha hng y _
    exact absurd (markList_new_mem_snd (∅, []) rootL a ha (Finset.not_mem_empty a)) hng
  constructor
  · intro hx
    refine traceFuel_sound h rootL _ _ _ ?_ ?_ x hx
    · intro a ha
      rcases (markList_fst_mem (∅, []) rootL a).mp ha with h1 | h1
      · exact absurd h1 (Finset.not_mem_empty a)
      · exact Reachable.root h1
    · exact markList_snd_sub_fst (∅, []) rootL
        (fun a ha => absurd ha (List.not_mem_nil a))
  · exact reachable_mem_closed h rootL _ hroots hclosed x

/-- C4. After any `collectGarbage`, the surviving all-objects list holds
exactly the objects that were on it and are reachable (through the
references `blackenObject` traverses) from the roots `markRoots`
enumerates — value-stack slots, frame closures, open upvalues, the
globals table, the compiler chain's functions and the cached "init"
string; every unmarked object was freed by `sweep`, and the mark state
left for the next cycle is empty. -/
theorem collectGarbage_keeps_exactly_reachable (h : Heap) (roots : VMRoots)
    (strings : Table) :
    (collectGarbage h roots strings).2.2 = (∅ : Finset Nat) ∧
    ∀ p : Nat × GCObj,
      p ∈ (collectGarbage h roots strings).1 ↔
        p ∈ h ∧ Reachable h (rootIds roots) p.1 := by
  refine ⟨rfl, ?_⟩
  intro p
  have hmain : (collectGarbage h roots strings).1 =
      sweep h (markPhase h (rootIds roots)) := rfl
  rw [hmain, sweep_mem, markPhase_iff_reachable]
